import Mathlib

/-!
Training schedule generator.

A shallow embedding of the schedule core of `training_schedule_generator_react_app.jsx`:
`generateSchedule`, `updateSession`, `addSessionAbove`, `removeSession`, and the
running-sum pass that fills the `remaining` column.

Modelling conventions

* JavaScript numbers that hold hours (`hoursPerDay`, `totalHours`, `hours`, `remaining`)
  are exact rationals; the rounding of binary64 is not modelled. For that reason nothing
  below is stated about an exact sum or an exact count of fractional hours on arbitrary
  inputs: the general theorems are about numbering, dates, exit of the loop, the formula
  and the order of the `remaining` column, and hours are evaluated only at concrete
  inputs made of whole numbers and quarters, on which binary64 arithmetic is exact.
* A JavaScript `Date` at local midnight is the number of days since 1970-01-01 (`Int`);
  the text `yyyy-MM-dd` is the record `IsoDate` of its three numeric fields and the text
  `HH:mm` is the record `HHmm`. Day numbers are unbounded: the end of the `Date` range
  (day 100,000,000, past which `format` throws a `RangeError`) is not modelled.
* The start date is set: `startDate` holds the text of a date input, not the empty text.
* The `while` loop of `generateSchedule` need not exit, so it is driven by a fuel counter:
  `none` means the fuel ran out before the loop exited. An input on which every amount of
  fuel gives `none` is one on which the program never reaches `setSessions`: in the
  browser the loop goes on until the cursor leaves the `Date` range and `format` throws.
-/

namespace Schedule

/-- The text `yyyy-MM-dd`, as a date input yields it, held as its three numeric fields. -/
structure IsoDate where
  year : Int
  month : Int
  day : Int
deriving DecidableEq, Repr

/-- The text `HH:mm`, held as its two numeric fields. -/
structure HHmm where
  hour : Int
  minute : Int
deriving DecidableEq, Repr

/-- Model of `format(date, 'yyyy-MM-dd')` of date-fns: the proleptic Gregorian calendar date
of a day number counted from 1970-01-01. -/
def format (z : Int) : IsoDate :=
  let z := z + 719468
  let era := z / 146097
  let doe := z % 146097
  let c := if doe / 36524 < 3 then doe / 36524 else 3
  let doc := doe - 36524 * c
  let q := doc / 1461
  let doq := doc % 1461
  let r := if doq / 365 < 3 then doq / 365 else 3
  let doy := doq - 365 * r
  let yoe := 100 * c + 4 * q + r
  let mp := (5 * doy + 2) / 153
  let d := doy - (153 * mp + 2) / 5 + 1
  let m := if mp < 10 then mp + 3 else mp - 9
  let y := yoe + era * 400
  ⟨if m ≤ 2 then y + 1 else y, m, d⟩

/-- Model of `parseISO` of date-fns on a `yyyy-MM-dd` text: the day number of a calendar
date, counted from 1970-01-01. -/
def parseISO (s : IsoDate) : Int :=
  let y := if s.month ≤ 2 then s.year - 1 else s.year
  let era := y / 400
  let yoe := y % 400
  let mp := if s.month > 2 then s.month - 3 else s.month + 9
  let doy := (153 * mp + 2) / 5 + s.day - 1
  let doe := yoe * 365 + yoe / 4 - yoe / 100 + doy
  era * 146097 + doe - 719468

/-- Model of `Date.prototype.getDay`: 0 is Sunday; 1970-01-01 was a Thursday. -/
def getDay (z : Int) : Nat := ((z + 4) % 7).toNat

/-- Model of `addDays` of date-fns. -/
def addDays (z : Int) (amount : Int) : Int := z + amount

/-- Model of `format(t, 'HH:mm')` for a time given in minutes after the midnight that
starts the cursor day. -/
def formatHHmm (minutes : Int) : HHmm := ⟨(minutes / 60) % 24, minutes % 60⟩

/-- Model of `setMinutes(setHours(cursor, h), m)`, in minutes after the cursor midnight. -/
def setHoursMinutes (t : HHmm) : Int := t.hour * 60 + t.minute

/-- Model of `addHours` of date-fns on a time in minutes (fractions of a minute are
dropped by the `HH:mm` rendering). -/
def addHours (minutes : Int) (amount : ℚ) : Int := minutes + ⌊amount * 60⌋

/-- One row of the schedule. `remaining` is absent (`none`) on the rows pushed by the loop
of `generateSchedule` until the running-sum pass fills it in. -/
structure Session where
  id : Nat
  sessionNumber : Nat
  date : IsoDate
  startTime : HHmm
  endTime : HHmm
  hours : ℚ
  remaining : Option ℚ
deriving DecidableEq

/-- The React state read by the schedule core. -/
structure ScheduleInput where
  startDate : IsoDate
  hoursPerDay : ℚ
  totalHours : ℚ
  selectedWeekdays : List Nat
  excludedDates : List IsoDate
  defaultStartTime : HHmm

/-- The running-sum pass `let cumulative = 0; list.map(s => { cumulative += s.hours;
return {...s, remaining: Math.max(0, totalHours - cumulative)} })`, started from a given
value of `cumulative`. -/
def recomputeFrom (totalHours : ℚ) : ℚ → List Session → List Session
  | _, [] => []
  | cumulative, s :: rest =>
    let cumulative := cumulative + s.hours
    { s with remaining := some (max 0 (totalHours - cumulative)) } ::
      recomputeFrom totalHours cumulative rest

/-- The running-sum pass of `generateSchedule`, `updateSession` and `removeSession`. -/
def recompute (totalHours : ℚ) (l : List Session) : List Session :=
  recomputeFrom totalHours 0 l

/-- The local variables of `generateSchedule` that change in its `while` loop. -/
structure LoopState where
  sessionsList : List Session
  hoursRemaining : ℚ
  cursor : Int
  sessionNumber : Nat

/-- One pass through the body of the `while` loop, up to and including
`cursor = addDays(cursor, 1)`. -/
def loopBody (inp : ScheduleInput) (st : LoopState) : LoopState :=
  let dayOfWeek := getDay st.cursor
  let cursorStr := format st.cursor
  if dayOfWeek ∈ inp.selectedWeekdays ∧ ¬ cursorStr ∈ inp.excludedDates then
    let plannedHours := min inp.hoursPerDay st.hoursRemaining
    let startTime := setHoursMinutes inp.defaultStartTime
    let endTime := addHours startTime plannedHours
    { sessionsList := st.sessionsList ++
        [{ id := st.sessionNumber, sessionNumber := st.sessionNumber, date := cursorStr,
           startTime := formatHHmm startTime, endTime := formatHHmm endTime,
           hours := plannedHours, remaining := none }],
      hoursRemaining := st.hoursRemaining - plannedHours,
      cursor := addDays st.cursor 1,
      sessionNumber := st.sessionNumber + 1 }
  else
    { st with cursor := addDays st.cursor 1 }

/-- The `while(hoursRemaining > 0)` loop with its `if(sessionNumber>5000) break`; each test
of the loop condition uses one unit of fuel. -/
def whileLoop (inp : ScheduleInput) : Nat → LoopState → Option LoopState
  | 0, _ => none
  | fuel + 1, st =>
    if st.hoursRemaining > 0 then
      let st' := loopBody inp st
      if st'.sessionNumber > 5000 then some st' else whileLoop inp fuel st'
    else some st

/-- The state on entry to the loop. -/
def initialState (inp : ScheduleInput) : LoopState :=
  { sessionsList := [], hoursRemaining := inp.totalHours,
    cursor := parseISO inp.startDate, sessionNumber := 1 }

/-- The function `generateSchedule`: the list handed to `setSessions`, or `none` when the loop has not
exited within the fuel given. -/
def generateSchedule (fuel : Nat) (inp : ScheduleInput) : Option (List Session) :=
  (whileLoop inp fuel (initialState inp)).map
    fun st => recompute inp.totalHours st.sessionsList

/-- The `.map((r,i)=>({...r, sessionNumber: i+1, id: i+1}))` renumbering, for a list whose
first element has index `i`. -/
def renumberFrom : Nat → List Session → List Session
  | _, [] => []
  | i, r :: rest => { r with sessionNumber := i + 1, id := i + 1 } :: renumberFrom (i + 1) rest

/-- A field of a row together with the value to store in it. The table cells issue the
`date`, `startTime`, `endTime` and `hours` edits; for `hours` the value is the number
`Number(value)`. -/
inductive Edit where
  | id (value : Nat)
  | sessionNumber (value : Nat)
  | date (value : IsoDate)
  | startTime (value : HHmm)
  | endTime (value : HHmm)
  | hours (value : ℚ)
  | remaining (value : ℚ)

/-- The object `{...s, [field]: field==='hours' ? Number(value) : value}`. -/
def Edit.apply (e : Edit) (s : Session) : Session :=
  match e with
  | .id v => { s with id := v }
  | .sessionNumber v => { s with sessionNumber := v }
  | .date v => { s with date := v }
  | .startTime v => { s with startTime := v }
  | .endTime v => { s with endTime := v }
  | .hours v => { s with hours := v }
  | .remaining v => { s with remaining := some v }

/-- The handler `updateSession(id, field, value)`: the new value of the `sessions` state. -/
def updateSession (totalHours : ℚ) (prev : List Session) (id : Nat) (e : Edit) :
    List Session :=
  let copy := prev.map fun s => if s.id = id then e.apply s else s
  recompute totalHours copy

/-- The call `prev.findIndex(s => s.id===id)`, with `none` for the result `-1`. -/
def findIndex (id : Nat) : List Session → Option Nat
  | [] => none
  | s :: rest => if s.id = id then some 0 else (findIndex id rest).map (· + 1)

/-- The handler `addSessionAbove(id)`: the new value of the `sessions` state; `none` when no row has
the id, where reading `prev[idx].date` throws. -/
def addSessionAbove (prev : List Session) (id : Nat) : Option (List Session) :=
  match findIndex id prev with
  | none => none
  | some idx =>
    match prev.get? idx with
    | none => none
    | some row =>
      let newId := (prev.map (·.id)).foldr max 0 + 1
      let newRow : Session :=
        { id := newId, sessionNumber := newId, date := row.date, startTime := row.startTime,
          endTime := row.endTime, hours := 0, remaining := some 0 }
      let newArr := prev.take idx ++ [newRow] ++ prev.drop idx
      some (renumberFrom 0 newArr)

/-- The handler `removeSession(id)`: the new value of the `sessions` state. -/
def removeSession (totalHours : ℚ) (prev : List Session) (id : Nat) : List Session :=
  let newArr := renumberFrom 0 (prev.filter fun s => s.id ≠ id)
  recompute totalHours newArr

/-- A day on which the loop of `generateSchedule` pushes a session: its weekday is selected
and its date text is not excluded. -/
def eligible (inp : ScheduleInput) (d : Int) : Prop :=
  getDay d ∈ inp.selectedWeekdays ∧ ¬ format d ∈ inp.excludedDates

instance (inp : ScheduleInput) (d : Int) : Decidable (eligible inp d) := by
  unfold eligible; infer_instance

/-- The eligible days among the first `span` calendar days from the start date, in
calendar order. -/
def eligibleDays (inp : ScheduleInput) (span : Nat) : List Int :=
  ((List.range span).map fun (i : Nat) => parseISO inp.startDate + (i : Int)).filter
    fun d => decide (eligible inp d)

/-- The inputs the form is meant to hold: positive hours per day and total hours, and a
non-empty set of weekday indices 0..6. -/
def ValidInput (inp : ScheduleInput) : Prop :=
  0 < inp.hoursPerDay ∧ 0 < inp.totalHours ∧ inp.selectedWeekdays ≠ [] ∧
    ∀ w ∈ inp.selectedWeekdays, w < 7

instance (inp : ScheduleInput) : Decidable (ValidInput inp) := by
  unfold ValidInput; infer_instance

/-- The rows are numbered 1..N in array order, in `id` and in `sessionNumber`. -/
def Numbered (l : List Session) : Prop :=
  l.map (·.id) = List.range' 1 l.length ∧ l.map (·.sessionNumber) = List.range' 1 l.length

instance (l : List Session) : Decidable (Numbered l) := by
  unfold Numbered; infer_instance

/-- Every `remaining` field is the target minus the running sum of `hours` up to and
including its own row, floored at zero. -/
def RemainingRecomputed (totalHours : ℚ) (out : List Session) : Prop :=
  out.map (·.remaining) = (List.range out.length).map fun k =>
    some (max 0 (totalHours - ((out.take (k + 1)).map (·.hours)).sum))

instance (totalHours : ℚ) (out : List Session) : Decidable (RemainingRecomputed totalHours out) := by
  unfold RemainingRecomputed; infer_instance

/-- What the loop keeps true about numbering and dates, for every input: the session
counter is one more than the number of rows, the rows are numbered 1, 2, ... in id and in
sessionNumber, and their dates are the eligible days among the days walked so far. -/
structure DatesInv (inp : ScheduleInput) (st : LoopState) : Prop where
  counter : st.sessionNumber = st.sessionsList.length + 1
  numbers : st.sessionsList.map (·.sessionNumber) = List.range' 1 st.sessionsList.length
  ids : st.sessionsList.map (·.id) = List.range' 1 st.sessionsList.length
  dates : ∃ span : Nat, st.cursor = parseISO inp.startDate + span ∧
    st.sessionsList.map (·.date) = (eligibleDays inp span).map format

/-- What the loop keeps true about hours when the hours per day and the total are
positive: the hours left are the total minus one daily allotment per row, floored at
zero; rows and hours left add up to the total; and every row has positive hours. -/
structure HoursInv (inp : ScheduleInput) (st : LoopState) : Prop where
  counter : st.sessionNumber = st.sessionsList.length + 1
  left : st.hoursRemaining =
    max (inp.totalHours - (st.sessionsList.length : ℚ) * inp.hoursPerDay) 0
  total : (st.sessionsList.map (·.hours)).sum + st.hoursRemaining = inp.totalHours
  positive : ∀ s ∈ st.sessionsList, 0 < s.hours

/-- The scenario of the specification: start 2024-01-01 (a Monday), 2 hours per day,
5 hours in all, Mondays and Wednesdays, nothing excluded, sessions starting at 09:00. -/
def scenario : ScheduleInput :=
  { startDate := ⟨2024, 1, 1⟩, hoursPerDay := 2, totalHours := 5, selectedWeekdays := [1, 3],
    excludedDates := [], defaultStartTime := ⟨9, 0⟩ }

/-- The scenario with 2024-01-03 excluded. -/
def scenarioExcluded : ScheduleInput :=
  { scenario with excludedDates := [⟨2024, 1, 3⟩] }

/-- The three rows the scenario yields. -/
def scenarioSessions : List Session :=
  [⟨1, 1, ⟨2024, 1, 1⟩, ⟨9, 0⟩, ⟨11, 0⟩, 2, some 3⟩,
   ⟨2, 2, ⟨2024, 1, 3⟩, ⟨9, 0⟩, ⟨11, 0⟩, 2, some 1⟩,
   ⟨3, 3, ⟨2024, 1, 8⟩, ⟨9, 0⟩, ⟨10, 0⟩, 1, some 0⟩]

/-- The three rows the scenario yields once 2024-01-03 is excluded. -/
def scenarioExcludedSessions : List Session :=
  [⟨1, 1, ⟨2024, 1, 1⟩, ⟨9, 0⟩, ⟨11, 0⟩, 2, some 3⟩,
   ⟨2, 2, ⟨2024, 1, 8⟩, ⟨9, 0⟩, ⟨11, 0⟩, 2, some 1⟩,
   ⟨3, 3, ⟨2024, 1, 10⟩, ⟨9, 0⟩, ⟨10, 0⟩, 1, some 0⟩]

/-- The scenario rows after `addSessionAbove(2)`: the inserted second row carries the
literal `remaining: 0`. -/
def scenarioInserted : List Session :=
  [⟨1, 1, ⟨2024, 1, 1⟩, ⟨9, 0⟩, ⟨11, 0⟩, 2, some 3⟩,
   ⟨2, 2, ⟨2024, 1, 3⟩, ⟨9, 0⟩, ⟨11, 0⟩, 0, some 0⟩,
   ⟨3, 3, ⟨2024, 1, 3⟩, ⟨9, 0⟩, ⟨11, 0⟩, 2, some 1⟩,
   ⟨4, 4, ⟨2024, 1, 8⟩, ⟨9, 0⟩, ⟨10, 0⟩, 1, some 0⟩]

/-- A valid input that needs 5001 sessions: one hour per day, 5001 hours in all. -/
def capInput : ScheduleInput :=
  { scenario with hoursPerDay := 1, totalHours := 5001 }

/-- The form defaults (2 hours per day, 20 hours) with a start date and every weekday
deselected, as the Regenerate button can submit them. -/
def noWeekdays : ScheduleInput :=
  { startDate := ⟨2024, 1, 1⟩, hoursPerDay := 2, totalHours := 20, selectedWeekdays := [],
    excludedDates := [], defaultStartTime := ⟨9, 0⟩ }

/-- The scenario with every weekday deselected. -/
def scenarioNoWeekdays : ScheduleInput :=
  { scenario with selectedWeekdays := [] }

/-- A valid input with fractional hours: 45 minutes per day from 23:30, 5 hours in all. -/
def quarterInput : ScheduleInput :=
  { scenario with hoursPerDay := 3 / 4, defaultStartTime := ⟨23, 30⟩ }

/-! ## Calendar -/

theorem parseISO_format (z : Int) : parseISO (format z) = z := by
  simp only [parseISO, format]
  have hz0 : 0 ≤ (z + 719468) % 146097 := by omega
  have hz1 : (z + 719468) % 146097 < 146097 := by omega
  have hz2 : z = 146097 * ((z + 719468) / 146097) + (z + 719468) % 146097 - 719468 := by omega
  generalize (z + 719468) % 146097 = doe at *
  generalize (z + 719468) / 146097 = era at *
  subst hz2
  obtain ⟨c, hc⟩ : ∃ c, c = if doe / 36524 < 3 then doe / 36524 else 3 := ⟨_, rfl⟩
  rw [← hc]
  have hc0 : 0 ≤ c ∧ c ≤ 3 := by rw [hc]; split_ifs <;> omega
  obtain ⟨doc, hdoc⟩ : ∃ doc, doc = doe - 36524 * c := ⟨_, rfl⟩
  rw [← hdoc]
  have hdoc0 : 0 ≤ doc ∧ doc ≤ 36524 := by
    rw [hdoc, hc]; split_ifs <;> omega
  clear hc
  obtain ⟨q, hq⟩ : ∃ q, q = doc / 1461 := ⟨_, rfl⟩
  obtain ⟨doq, hdoq⟩ : ∃ doq, doq = doc % 1461 := ⟨_, rfl⟩
  rw [← hq, ← hdoq]
  have hq0 : 0 ≤ q ∧ q ≤ 24 := by omega
  have hdoq0 : 0 ≤ doq ∧ doq ≤ 1460 ∧ doc = 1461 * q + doq := by omega
  clear hq hdoq
  obtain ⟨r, hr⟩ : ∃ r, r = if doq / 365 < 3 then doq / 365 else 3 := ⟨_, rfl⟩
  rw [← hr]
  have hr0 : 0 ≤ r ∧ r ≤ 3 := by rw [hr]; split_ifs <;> omega
  obtain ⟨doy, hdoy⟩ : ∃ doy, doy = doq - 365 * r := ⟨_, rfl⟩
  rw [← hdoy]
  have hdoy0 : 0 ≤ doy ∧ doy ≤ 365 := by
    rw [hdoy, hr]; split_ifs <;> omega
  clear hr
  obtain ⟨yoe, hyoe⟩ : ∃ yoe, yoe = 100 * c + 4 * q + r := ⟨_, rfl⟩
  rw [← hyoe]
  have hy1 : (yoe + era * 400) / 400 = era := by omega
  have hy2 : (yoe + era * 400) % 400 = yoe := by omega
  have hy3 : yoe / 4 = 25 * c + q := by omega
  have hy4 : yoe / 100 = c := by omega
  obtain ⟨mp, hmp⟩ : ∃ mp, mp = (5 * doy + 2) / 153 := ⟨_, rfl⟩
  rw [← hmp]
  have hmp0 : 0 ≤ mp ∧ mp ≤ 11 := by omega
  split_ifs <;> simp only [add_sub_cancel_right, hy1, hy2, hy3, hy4] <;> omega

theorem format_injective : Function.Injective format := by
  intro a b h
  have := congrArg parseISO h
  simpa [parseISO_format] using this

/-! ## The running-sum pass -/

theorem recomputeFrom_length (T c : ℚ) (l : List Session) :
    (recomputeFrom T c l).length = l.length := by
  induction l generalizing c with
  | nil => rfl
  | cons s rest ih => simp [recomputeFrom, ih]

theorem recomputeFrom_map_hours (T c : ℚ) (l : List Session) :
    (recomputeFrom T c l).map (·.hours) = l.map (·.hours) := by
  induction l generalizing c with
  | nil => rfl
  | cons s rest ih => simp [recomputeFrom, ih]

theorem recomputeFrom_map_remaining (T c : ℚ) (l : List Session) :
    (recomputeFrom T c l).map (·.remaining) = (List.range l.length).map fun k =>
      some (max 0 (T - (c + ((l.take (k + 1)).map (·.hours)).sum))) := by
  induction l generalizing c with
  | nil => rfl
  | cons s rest ih =>
    simp only [recomputeFrom, List.map_cons, List.length_cons, List.range_succ_eq_map,
      List.map_map, ih]
    simp [Function.comp_def, add_assoc]

theorem recompute_remainingRecomputed (T : ℚ) (l : List Session) :
    RemainingRecomputed T (recompute T l) := by
  unfold RemainingRecomputed recompute
  rw [recomputeFrom_map_remaining, recomputeFrom_length]
  apply List.map_congr_left
  intro k _
  rw [List.map_take, List.map_take, recomputeFrom_map_hours, zero_add]

theorem recomputeFrom_idem (T c : ℚ) (l : List Session) :
    recomputeFrom T c (recomputeFrom T c l) = recomputeFrom T c l := by
  induction l generalizing c with
  | nil => rfl
  | cons s rest ih => simp [recomputeFrom, ih]

/-- C10: the running-sum pass is idempotent: for every session list and every target,
running it on its own result changes nothing. -/
theorem recompute_idempotent (totalHours : ℚ) (l : List Session) :
    recompute totalHours (recompute totalHours l) = recompute totalHours l :=
  recomputeFrom_idem totalHours 0 l

/-- C7: after `updateSession` and after `removeSession` every row's `remaining` is
`max(0, totalHours - sum of hours of rows 1..k)` over the returned list in array order,
and an `hours` edit puts the new number into every row that carries the id. -/
theorem updateSession_removeSession_remaining (totalHours : ℚ) (prev : List Session)
    (id : Nat) (e : Edit) :
    RemainingRecomputed totalHours (updateSession totalHours prev id e) ∧
    RemainingRecomputed totalHours (removeSession totalHours prev id) ∧
    ∀ v : ℚ, (updateSession totalHours prev id (Edit.hours v)).map (·.hours) =
      prev.map fun s => if s.id = id then v else s.hours := by
  refine ⟨recompute_remainingRecomputed _ _, recompute_remainingRecomputed _ _, ?_⟩
  intro v
  unfold updateSession recompute
  rw [recomputeFrom_map_hours, List.map_map]
  apply List.map_congr_left
  intro s _
  by_cases h : s.id = id <;> simp [h, Edit.apply]

/-! ## Renumbering, insertion and removal -/

theorem renumberFrom_length (i : Nat) (l : List Session) :
    (renumberFrom i l).length = l.length := by
  induction l generalizing i with
  | nil => rfl
  | cons s rest ih => simp [renumberFrom, ih]

theorem renumberFrom_append (i : Nat) (l₁ l₂ : List Session) :
    renumberFrom i (l₁ ++ l₂) = renumberFrom i l₁ ++ renumberFrom (i + l₁.length) l₂ := by
  induction l₁ generalizing i with
  | nil => simp [renumberFrom]
  | cons s rest ih =>
    have e : i + 1 + rest.length = i + (rest.length + 1) := by omega
    have h := ih (i + 1)
    rw [e] at h
    rw [List.cons_append]
    simp only [renumberFrom, List.length_cons, List.cons_append, h]

theorem renumberFrom_renumberFrom (i j : Nat) (l : List Session) :
    renumberFrom i (renumberFrom j l) = renumberFrom i l := by
  induction l generalizing i j with
  | nil => rfl
  | cons s rest ih => simp [renumberFrom, ih]

theorem id_of_mem_renumberFrom {i : Nat} {l : List Session} {s : Session}
    (h : s ∈ renumberFrom i l) : i < s.id ∧ s.id ≤ i + l.length := by
  induction l generalizing i with
  | nil => simp [renumberFrom] at h
  | cons r rest ih =>
    simp only [renumberFrom, List.mem_cons] at h
    rcases h with h | h
    · subst h
      simp
    · have := ih h
      simp only [List.length_cons]
      omega

theorem findIndex_of_numbered {j i : Nat} {prev : List Session}
    (hnum : renumberFrom j prev = prev) (h₁ : j < i) (h₂ : i ≤ j + prev.length) :
    findIndex i prev = some (i - 1 - j) := by
  induction prev generalizing j with
  | nil => simp at h₂; omega
  | cons s rest ih =>
    simp only [renumberFrom, List.cons.injEq] at hnum
    obtain ⟨hs, hrest⟩ := hnum
    have hid : s.id = j + 1 := by rw [← hs]
    by_cases hij : i = j + 1
    · simp [findIndex, hid, hij]
    · have h₃ : j + 1 < i := by omega
      have h₄ : i ≤ j + 1 + rest.length := by simp only [List.length_cons] at h₂; omega
      have hne : ¬ s.id = i := by omega
      simp only [findIndex, hne, if_false, ih hrest h₃ h₄, Option.map_some']
      congr 1
      omega

/-- The rows that survive `filter(s => s.id !== i)` after a row was inserted at index
`i - 1` and the list renumbered. -/
theorem filter_renumberFrom_insert (a b : List Session) (x : Session) (i : Nat)
    (hi : a.length + 1 = i) :
    (renumberFrom 0 (a ++ [x] ++ b)).filter (fun s => decide (s.id ≠ i)) =
      renumberFrom 0 a ++ renumberFrom i b := by
  rw [List.append_assoc, renumberFrom_append, renumberFrom_append, List.filter_append,
    List.filter_append]
  have ha : (renumberFrom 0 a).filter (fun s => decide (s.id ≠ i)) = renumberFrom 0 a := by
    rw [List.filter_eq_self]
    intro s hs
    have := id_of_mem_renumberFrom hs
    simp only [decide_eq_true_eq]
    omega
  have hx : (renumberFrom (0 + a.length) [x]).filter (fun s => decide (s.id ≠ i)) = [] := by
    simp [renumberFrom, hi]
  have hb : (renumberFrom (0 + a.length + [x].length) b).filter (fun s => decide (s.id ≠ i)) =
      renumberFrom i b := by
    have e : 0 + a.length + [x].length = i := by simp; omega
    rw [e, List.filter_eq_self]
    intro s hs
    have := id_of_mem_renumberFrom hs
    simp only [decide_eq_true_eq]
    omega
  rw [ha, hx, hb, List.nil_append]

theorem renumberFrom_eq_self {j : Nat} {l : List Session}
    (hid : l.map (·.id) = List.range' (j + 1) l.length)
    (hsn : l.map (·.sessionNumber) = List.range' (j + 1) l.length) :
    renumberFrom j l = l := by
  induction l generalizing j with
  | nil => rfl
  | cons s rest ih =>
    simp only [List.map_cons, List.length_cons, List.range'_succ, List.cons.injEq] at hid hsn
    rw [renumberFrom, ih hid.2 hsn.2]
    congr 1
    cases s
    simp_all

theorem recomputeFrom_eq_self {T c : ℚ} {l : List Session}
    (h : (recomputeFrom T c l).map (·.remaining) = l.map (·.remaining)) :
    recomputeFrom T c l = l := by
  induction l generalizing c with
  | nil => rfl
  | cons s rest ih =>
    simp only [recomputeFrom, List.map_cons, List.cons.injEq] at h
    rw [recomputeFrom, ih h.2]
    congr 1
    cases s
    simp_all

theorem recompute_eq_self {T : ℚ} {l : List Session} (h : RemainingRecomputed T l) :
    recompute T l = l := by
  apply recomputeFrom_eq_self
  rw [recomputeFrom_map_remaining, h]
  simp

/-- C8: on a list numbered 1..N (id = sessionNumber = position) whose `remaining` fields
are already recomputed for `totalHours`, `addSessionAbove(i)` for a position `i` in 1..N
followed by `removeSession(i)` gives back the original list, every field of every row. -/
theorem removeSession_addSessionAbove (totalHours : ℚ) (prev : List Session) (i : Nat)
    (hnumbered : Numbered prev) (hrecomputed : RemainingRecomputed totalHours prev)
    (h₁ : 1 ≤ i) (h₂ : i ≤ prev.length) :
    ∃ mid, addSessionAbove prev i = some mid ∧ removeSession totalHours mid i = prev := by
  have hnum : renumberFrom 0 prev = prev := renumberFrom_eq_self hnumbered.1 hnumbered.2
  have hrem : recompute totalHours prev = prev := recompute_eq_self hrecomputed
  have hidx : findIndex i prev = some (i - 1) := by
    have := findIndex_of_numbered hnum (j := 0) (i := i) (by omega) (by omega)
    simpa using this
  have hlt : i - 1 < prev.length := by omega
  have hget : prev.get? (i - 1) = some (prev.get ⟨i - 1, hlt⟩) := List.get?_eq_get hlt
  refine ⟨_, by simp only [addSessionAbove, hidx, hget]; rfl, ?_⟩
  have hlen : (prev.take (i - 1)).length + 1 = i := by
    rw [List.length_take]; omega
  show recompute totalHours (renumberFrom 0 (List.filter (fun s => decide (s.id ≠ i)) _)) = prev
  rw [filter_renumberFrom_insert _ _ _ i hlen, renumberFrom_append, renumberFrom_renumberFrom,
    renumberFrom_renumberFrom, renumberFrom_length, ← renumberFrom_append,
    List.take_append_drop, hnum, hrem]

/-! ## The generation loop -/

theorem loopBody_eligible (inp : ScheduleInput) (st : LoopState)
    (h : eligible inp st.cursor) :
    loopBody inp st =
      { sessionsList := st.sessionsList ++
          [{ id := st.sessionNumber, sessionNumber := st.sessionNumber,
             date := format st.cursor,
             startTime := formatHHmm (setHoursMinutes inp.defaultStartTime),
             endTime := formatHHmm (addHours (setHoursMinutes inp.defaultStartTime)
               (min inp.hoursPerDay st.hoursRemaining)),
             hours := min inp.hoursPerDay st.hoursRemaining, remaining := none }],
        hoursRemaining := st.hoursRemaining - min inp.hoursPerDay st.hoursRemaining,
        cursor := st.cursor + 1,
        sessionNumber := st.sessionNumber + 1 } := by
  unfold eligible at h
  simp only [loopBody, h, not_false_eq_true, and_self, if_true, addDays]

theorem loopBody_not_eligible (inp : ScheduleInput) (st : LoopState)
    (h : ¬ eligible inp st.cursor) :
    loopBody inp st = { st with cursor := st.cursor + 1 } := by
  unfold eligible at h
  simp only [loopBody, h, if_false, addDays]

theorem loopBody_sessionNumber_le (inp : ScheduleInput) (st : LoopState) :
    st.sessionNumber ≤ (loopBody inp st).sessionNumber ∧
      (loopBody inp st).sessionNumber ≤ st.sessionNumber + 1 := by
  by_cases h : eligible inp st.cursor
  · rw [loopBody_eligible inp st h]; simp
  · rw [loopBody_not_eligible inp st h]; simp

/-- Invariant rule for the loop: a property kept by every pass through the body holds of
the state on exit, and the loop exits either with no hours left or right after the
session counter has passed 5000. -/
theorem whileLoop_inv (inp : ScheduleInput) (P : LoopState → Prop)
    (hstep : ∀ s, P s → 0 < s.hoursRemaining → P (loopBody inp s)) :
    ∀ (fuel : Nat) (st r : LoopState), P st → st.sessionNumber ≤ 5000 →
      whileLoop inp fuel st = some r →
      P r ∧ r.sessionNumber ≤ 5001 ∧ (r.hoursRemaining ≤ 0 ∨ r.sessionNumber = 5001) := by
  intro fuel
  induction fuel with
  | zero => intro st r _ _ h; simp [whileLoop] at h
  | succ n ih =>
    intro st r hP hsn h
    simp only [whileLoop] at h
    by_cases hrem : 0 < st.hoursRemaining
    · have hb := loopBody_sessionNumber_le inp st
      simp only [gt_iff_lt, hrem, if_true] at h
      by_cases hbr : 5000 < (loopBody inp st).sessionNumber
      · simp only [hbr, if_true, Option.some.injEq] at h
        subst h
        exact ⟨hstep st hP hrem, by omega, Or.inr (by omega)⟩
      · simp only [hbr, if_false] at h
        exact ih _ r (hstep st hP hrem) (by omega) h
    · simp only [gt_iff_lt, hrem, if_false, Option.some.injEq] at h
      subst h
      exact ⟨hP, by omega, Or.inl (le_of_not_lt hrem)⟩

theorem generateSchedule_eq_some {fuel : Nat} {inp : ScheduleInput} {out : List Session}
    (h : generateSchedule fuel inp = some out) :
    ∃ r, whileLoop inp fuel (initialState inp) = some r ∧
      out = recompute inp.totalHours r.sessionsList := by
  unfold generateSchedule at h
  cases hw : whileLoop inp fuel (initialState inp) with
  | none => simp [hw] at h
  | some r => exact ⟨r, rfl, by simpa [hw] using h.symm⟩

theorem recomputeFrom_map_date (T c : ℚ) (l : List Session) :
    (recomputeFrom T c l).map (·.date) = l.map (·.date) := by
  induction l generalizing c with
  | nil => rfl
  | cons s rest ih => simp [recomputeFrom, ih]

theorem recomputeFrom_map_sessionNumber (T c : ℚ) (l : List Session) :
    (recomputeFrom T c l).map (·.sessionNumber) = l.map (·.sessionNumber) := by
  induction l generalizing c with
  | nil => rfl
  | cons s rest ih => simp [recomputeFrom, ih]

theorem recomputeFrom_map_id (T c : ℚ) (l : List Session) :
    (recomputeFrom T c l).map (·.id) = l.map (·.id) := by
  induction l generalizing c with
  | nil => rfl
  | cons s rest ih => simp [recomputeFrom, ih]

theorem eligibleDays_succ (inp : ScheduleInput) (span : Nat) :
    eligibleDays inp (span + 1) =
      eligibleDays inp span ++
        (if eligible inp (parseISO inp.startDate + span) then [parseISO inp.startDate + span]
         else []) := by
  unfold eligibleDays
  rw [List.range_succ, List.map_append, List.filter_append]
  congr 1
  by_cases h : eligible inp (parseISO inp.startDate + span) <;> simp [h]

theorem eligible_of_mem_eligibleDays {inp : ScheduleInput} {span : Nat} {d : Int}
    (h : d ∈ eligibleDays inp span) :
    eligible inp d ∧ parseISO inp.startDate ≤ d ∧ d < parseISO inp.startDate + span := by
  unfold eligibleDays at h
  simp only [List.mem_filter, List.mem_map, List.mem_range, decide_eq_true_eq] at h
  obtain ⟨⟨i, hi, rfl⟩, he⟩ := h
  exact ⟨he, by omega, by omega⟩

theorem eligibleDays_pairwise (inp : ScheduleInput) (span : Nat) :
    (eligibleDays inp span).Pairwise (· < ·) := by
  induction span with
  | zero => simp [eligibleDays]
  | succ n ih =>
    rw [eligibleDays_succ, List.pairwise_append]
    refine ⟨ih, ?_, ?_⟩
    · split_ifs <;> simp
    · intro a ha b hb
      have ha' := eligible_of_mem_eligibleDays ha
      split_ifs at hb
      · simp only [List.mem_singleton] at hb
        omega
      · simp at hb

theorem datesInv_initial (inp : ScheduleInput) : DatesInv inp (initialState inp) :=
  ⟨rfl, rfl, rfl, 0, by simp [initialState], by simp [initialState, eligibleDays]⟩

theorem datesInv_step (inp : ScheduleInput) (s : LoopState) (h : DatesInv inp s) :
    DatesInv inp (loopBody inp s) := by
  obtain ⟨hc, hn, hi, span, hcur, hd⟩ := h
  by_cases he : eligible inp s.cursor
  · rw [loopBody_eligible inp s he]
    refine ⟨by simp [hc], ?_, ?_, span + 1, by simp [hcur]; ring, ?_⟩
    · simp only [List.map_append, hn, List.map_cons, List.map_nil, List.length_append,
        List.length_singleton, List.range'_1_concat, hc]
      simp [Nat.add_comm]
    · simp only [List.map_append, hi, List.map_cons, List.map_nil, List.length_append,
        List.length_singleton, List.range'_1_concat, hc]
      simp [Nat.add_comm]
    · rw [eligibleDays_succ, ← hcur]
      simp [he, hd]
  · rw [loopBody_not_eligible inp s he]
    refine ⟨hc, hn, hi, span + 1, by simp [hcur]; ring, ?_⟩
    rw [eligibleDays_succ, ← hcur]
    simp [he, hd]

/-- Every list `generateSchedule` returns comes from a final loop state that satisfies the
numbering-and-dates invariant. -/
theorem generateSchedule_datesInv {fuel : Nat} {inp : ScheduleInput} {out : List Session}
    (h : generateSchedule fuel inp = some out) :
    ∃ r, DatesInv inp r ∧ out = recompute inp.totalHours r.sessionsList := by
  obtain ⟨r, hr, hout⟩ := generateSchedule_eq_some h
  exact ⟨r, (whileLoop_inv inp (DatesInv inp) (fun s hs _ => datesInv_step inp s hs) fuel _ r
    (datesInv_initial inp) (by simp [initialState]) hr).1, hout⟩

/-- C2: whenever `generateSchedule` returns, every session's date has a selected weekday
and its date text is not among the excluded dates. -/
theorem generateSchedule_sessions_eligible (fuel : Nat) (inp : ScheduleInput)
    (out : List Session) (h : generateSchedule fuel inp = some out) :
    ∀ s ∈ out, getDay (parseISO s.date) ∈ inp.selectedWeekdays ∧
      ¬ s.date ∈ inp.excludedDates := by
  obtain ⟨r, ⟨_, _, _, span, _, hd⟩, rfl⟩ := generateSchedule_datesInv h
  intro s hs
  have hmem : s.date ∈ (recompute inp.totalHours r.sessionsList).map (·.date) :=
    List.mem_map_of_mem _ hs
  rw [recompute, recomputeFrom_map_date, hd, List.mem_map] at hmem
  obtain ⟨d, hdmem, hfd⟩ := hmem
  have he := (eligible_of_mem_eligibleDays hdmem).1
  rw [← hfd, parseISO_format]
  exact he

/-- Every list `generateSchedule` returns is numbered 1..N and has its `remaining` fields
recomputed for the total, and has at most 5000 rows. -/
theorem generateSchedule_numbered_recomputed {fuel : Nat} {inp : ScheduleInput}
    {out : List Session} (h : generateSchedule fuel inp = some out) :
    Numbered out ∧ RemainingRecomputed inp.totalHours out ∧ out.length ≤ 5000 := by
  obtain ⟨r, hr, hout⟩ := generateSchedule_eq_some h
  obtain ⟨hd, hle, _⟩ := whileLoop_inv inp (DatesInv inp)
    (fun s hs _ => datesInv_step inp s hs) fuel _ r (datesInv_initial inp)
    (by simp [initialState]) hr
  obtain ⟨hc, hn, hi, _⟩ := hd
  subst hout
  refine ⟨⟨?_, ?_⟩, recompute_remainingRecomputed _ _, ?_⟩
  · rw [recompute, recomputeFrom_map_id, recomputeFrom_length, hi]
  · rw [recompute, recomputeFrom_map_sessionNumber, recomputeFrom_length, hn]
  · rw [recompute, recomputeFrom_length]
    omega

/-! ## Exit of the loop -/

/-- With no eligible day anywhere no amount of fuel brings the loop to its exit: the
session counter, which is all the `break` looks at, stays put and so do the hours
remaining. -/
theorem whileLoop_diverges (inp : ScheduleInput) (hno : ∀ d, ¬ eligible inp d) :
    ∀ (fuel : Nat) (st : LoopState), 0 < st.hoursRemaining → st.sessionNumber ≤ 5000 →
      whileLoop inp fuel st = none := by
  intro fuel
  induction fuel with
  | zero => intro st _ _; rfl
  | succ n ih =>
    intro st hrem hsn
    have hb := loopBody_not_eligible inp st (hno st.cursor)
    have hnb : ¬ 5000 < (loopBody inp st).sessionNumber := by rw [hb]; simpa using hsn
    simp only [whileLoop, gt_iff_lt, hrem, if_true, hnb, if_false]
    rw [hb]
    exact ih _ hrem hsn

theorem getDay_add_weeks (d : Int) (k : Nat) : getDay (d + 7 * (k : Int)) = getDay d := by
  unfold getDay
  congr 1
  omega

/-- A selected weekday in 0..6 and a finite exclusion list leave an eligible day on or
after every day. -/
theorem exists_eligible (inp : ScheduleInput) (hw : ∃ w ∈ inp.selectedWeekdays, w < 7)
    (c : Int) : ∃ j : Nat, eligible inp (c + (j : Int)) := by
  obtain ⟨w, hwmem, hw7⟩ := hw
  obtain ⟨j0, hj0⟩ : ∃ j0 : Nat, getDay (c + (j0 : Int)) = w := by
    refine ⟨(((w : Int) - (c + 4)) % 7).toNat, ?_⟩
    unfold getDay
    omega
  by_contra hno
  push_neg at hno
  have hall : ∀ k : Nat, c + (j0 : Int) + 7 * (k : Int) ∈ inp.excludedDates.map parseISO := by
    intro k
    have h := hno (j0 + 7 * k)
    have hd : c + ((j0 + 7 * k : Nat) : Int) = c + (j0 : Int) + 7 * (k : Int) := by
      push_cast; ring
    rw [hd] at h
    unfold eligible at h
    rw [getDay_add_weeks, hj0] at h
    have hex : format (c + (j0 : Int) + 7 * (k : Int)) ∈ inp.excludedDates := by
      by_contra hne
      exact h ⟨hwmem, hne⟩
    have := List.mem_map_of_mem parseISO hex
    rwa [parseISO_format] at this
  have hcard := Finset.card_le_card_of_injOn
    (s := Finset.range (inp.excludedDates.length + 1))
    (t := (inp.excludedDates.map parseISO).toFinset)
    (fun k : Nat => c + (j0 : Int) + 7 * (k : Int))
    (fun k _ => by simpa using hall k)
    (fun a _ b _ hab => by simp only at hab; omega)
  have hlen := List.toFinset_card_le (inp.excludedDates.map parseISO)
  simp only [Finset.card_range, List.length_map] at hcard hlen
  omega

theorem whileLoop_skip (inp : ScheduleInput) :
    ∀ (j fuel : Nat) (st : LoopState),
      (∀ i : Nat, i < j → ¬ eligible inp (st.cursor + (i : Int))) →
      0 < st.hoursRemaining → st.sessionNumber ≤ 5000 →
      whileLoop inp (fuel + j) st =
        whileLoop inp fuel { st with cursor := st.cursor + (j : Int) } := by
  intro j
  induction j with
  | zero => intro fuel st _ _ _; simp
  | succ n ih =>
    intro fuel st hne hrem hsn
    have h0 : ¬ eligible inp st.cursor := by simpa using hne 0 (by omega)
    have hb := loopBody_not_eligible inp st h0
    have hnb : ¬ 5000 < (loopBody inp st).sessionNumber := by rw [hb]; simpa using hsn
    rw [show fuel + (n + 1) = (fuel + n) + 1 by omega]
    simp only [whileLoop, gt_iff_lt, hrem, if_true, hnb, if_false]
    rw [hb]
    have hne' : ∀ i : Nat, i < n → ¬ eligible inp (st.cursor + 1 + (i : Int)) := by
      intro i hi
      have := hne (i + 1) (by omega)
      rwa [show st.cursor + ((i + 1 : Nat) : Int) = st.cursor + 1 + (i : Int) by
        push_cast; ring] at this
    have hstep := ih fuel { st with cursor := st.cursor + 1 } hne' hrem hsn
    rw [hstep]
    have hc : st.cursor + 1 + (n : Int) = st.cursor + ((n + 1 : Nat) : Int) := by
      push_cast; ring
    simp only [hc]

/-- The loop exits on every input that selects a weekday in 0..6, whatever the hours per
day and the total are: either the hours run out or the session counter passes 5000. -/
theorem whileLoop_terminates (inp : ScheduleInput)
    (hw : ∃ w ∈ inp.selectedWeekdays, w < 7) :
    ∀ (m : Nat) (st : LoopState), 5001 - st.sessionNumber ≤ m →
      ∃ fuel r, whileLoop inp fuel st = some r := by
  intro m
  induction m with
  | zero =>
    intro st hm
    by_cases hrem : 0 < st.hoursRemaining
    · have hb := loopBody_sessionNumber_le inp st
      have hbr : 5000 < (loopBody inp st).sessionNumber := by omega
      exact ⟨1, loopBody inp st, by simp [whileLoop, hrem, hbr]⟩
    · exact ⟨1, st, by simp [whileLoop, hrem]⟩
  | succ n ih =>
    intro st hm
    by_cases hrem : 0 < st.hoursRemaining
    · by_cases hsn : st.sessionNumber ≤ 5000
      · have hex := exists_eligible inp hw st.cursor
        classical
        have hj := Nat.find_spec hex
        have hmin : ∀ i : Nat, i < Nat.find hex → ¬ eligible inp (st.cursor + (i : Int)) :=
          fun i hi => Nat.find_min hex hi
        have hskip := fun fuel => whileLoop_skip inp (Nat.find hex) fuel st hmin hrem hsn
        generalize Nat.find hex = j at hj hskip
        have hb := loopBody_eligible inp { st with cursor := st.cursor + (j : Int) } hj
        have hbsn : (loopBody inp { st with cursor := st.cursor + (j : Int) }).sessionNumber =
            st.sessionNumber + 1 := by rw [hb]
        by_cases hbr : 5000 < st.sessionNumber + 1
        · refine ⟨1 + j, loopBody inp { st with cursor := st.cursor + (j : Int) }, ?_⟩
          rw [hskip 1]
          simp [whileLoop, hrem, hbsn, hbr]
        · obtain ⟨fuel, r, hr⟩ := ih (loopBody inp { st with cursor := st.cursor + (j : Int) })
            (by rw [hbsn]; omega)
          refine ⟨(fuel + 1) + j, r, ?_⟩
          rw [hskip (fuel + 1)]
          simp only [whileLoop, gt_iff_lt, hrem, if_true, hbsn, hbr, if_false]
          exact hr
      · have hb := loopBody_sessionNumber_le inp st
        have hbr : 5000 < (loopBody inp st).sessionNumber := by omega
        exact ⟨1, loopBody inp st, by simp [whileLoop, hrem, hbr]⟩
    · exact ⟨1, st, by simp [whileLoop, hrem]⟩

theorem generateSchedule_terminates (inp : ScheduleInput)
    (hw : ∃ w ∈ inp.selectedWeekdays, w < 7) :
    ∃ fuel out, generateSchedule fuel inp = some out := by
  obtain ⟨fuel, r, hr⟩ := whileLoop_terminates inp hw _ (initialState inp) le_rfl
  exact ⟨fuel, recompute inp.totalHours r.sessionsList, by simp [generateSchedule, hr]⟩

theorem validInput_weekday {inp : ScheduleInput} (hv : ValidInput inp) :
    ∃ w ∈ inp.selectedWeekdays, w < 7 := by
  obtain ⟨_, _, hne, hlt⟩ := hv
  obtain ⟨w, hw⟩ := List.exists_mem_of_ne_nil _ hne
  exact ⟨w, hw, hlt w hw⟩

/-! ## Hours handed out by the loop -/

theorem hoursInv_initial (inp : ScheduleInput) (hv : ValidInput inp) :
    HoursInv inp (initialState inp) := by
  obtain ⟨hh, ht, _, _⟩ := hv
  refine ⟨rfl, ?_, ?_, ?_⟩
  · simp [initialState, le_of_lt ht]
  · simp [initialState]
  · simp [initialState]

theorem hoursInv_step (inp : ScheduleInput) (hv : ValidInput inp) (s : LoopState)
    (h : HoursInv inp s) (hrem : 0 < s.hoursRemaining) : HoursInv inp (loopBody inp s) := by
  obtain ⟨hh, ht, _, _⟩ := hv
  obtain ⟨hc, hl, hsum, hpos⟩ := h
  by_cases he : eligible inp s.cursor
  · rw [loopBody_eligible inp s he]
    have hleft : s.hoursRemaining =
        inp.totalHours - (s.sessionsList.length : ℚ) * inp.hoursPerDay := by
      rcases le_total (inp.totalHours - (s.sessionsList.length : ℚ) * inp.hoursPerDay) 0
        with h0 | h0
      · rw [max_eq_right h0] at hl
        linarith
      · rw [max_eq_left h0] at hl
        exact hl
    refine ⟨by simp [hc], ?_, ?_, ?_⟩
    · simp only [List.length_append, List.length_singleton, Nat.cast_add, Nat.cast_one]
      rcases le_total inp.hoursPerDay s.hoursRemaining with h1 | h1
      · rw [min_eq_left h1, max_eq_left (by linarith)]
        linarith
      · rw [min_eq_right h1, max_eq_right (by linarith)]
        linarith
    · simp only [List.map_append, List.map_cons, List.map_nil, List.sum_append,
        List.sum_cons, List.sum_nil]
      linarith
    · intro x hx
      simp only [List.mem_append, List.mem_singleton] at hx
      rcases hx with hx | hx
      · exact hpos x hx
      · subst hx
        exact lt_min hh hrem
  · rw [loopBody_not_eligible inp s he]
    exact ⟨hc, hl, hsum, hpos⟩

/-- On a valid input every list `generateSchedule` returns comes from a final loop state
that satisfies both invariants, has at most 5000 rows, and has either no hours left or
exactly 5000 rows. -/
theorem generateSchedule_final {fuel : Nat} {inp : ScheduleInput} {out : List Session}
    (hv : ValidInput inp) (h : generateSchedule fuel inp = some out) :
    ∃ r, DatesInv inp r ∧ HoursInv inp r ∧ out = recompute inp.totalHours r.sessionsList ∧
      r.sessionsList.length ≤ 5000 ∧
      (r.hoursRemaining ≤ 0 ∨ r.sessionsList.length = 5000) := by
  obtain ⟨r, hr, hout⟩ := generateSchedule_eq_some h
  have hres := whileLoop_inv inp (fun s => DatesInv inp s ∧ HoursInv inp s)
    (fun s hs hrem => ⟨datesInv_step inp s hs.1, hoursInv_step inp hv s hs.2 hrem⟩) fuel _ r
    ⟨datesInv_initial inp, hoursInv_initial inp hv⟩ (by simp [initialState]) hr
  obtain ⟨⟨hd, hh⟩, hle, hor⟩ := hres
  have hc := hh.counter
  refine ⟨r, hd, hh, hout, by omega, ?_⟩
  rcases hor with h0 | h1
  · exact Or.inl h0
  · exact Or.inr (by omega)

theorem recomputeFrom_remaining_antitone (T c : ℚ) (l : List Session)
    (hpos : ∀ s ∈ l, 0 ≤ s.hours) :
    ∃ rs : List ℚ, (recomputeFrom T c l).map (·.remaining) = rs.map some ∧
      rs.Pairwise (fun a b => b ≤ a) ∧ ∀ r ∈ rs, 0 ≤ r ∧ r ≤ max 0 (T - c) := by
  induction l generalizing c with
  | nil => exact ⟨[], rfl, List.Pairwise.nil, by simp⟩
  | cons s rest ih =>
    have hs : 0 ≤ s.hours := hpos s (List.mem_cons_self _ _)
    obtain ⟨rs, hmap, hpw, hb⟩ := ih (c + s.hours) (fun x hx => hpos x (List.mem_cons_of_mem _ hx))
    have hmono : max 0 (T - (c + s.hours)) ≤ max 0 (T - c) :=
      max_le_max le_rfl (by linarith)
    refine ⟨max 0 (T - (c + s.hours)) :: rs, ?_, ?_, ?_⟩
    · simp [recomputeFrom, hmap]
    · exact List.Pairwise.cons (fun b hbm => (hb b hbm).2) hpw
    · intro r hr
      simp only [List.mem_cons] at hr
      rcases hr with hr | hr
      · subst hr
        exact ⟨le_max_left _ _, hmono⟩
      · exact ⟨(hb r hr).1, le_trans (hb r hr).2 hmono⟩

/-! ## The claims about `generateSchedule` on valid inputs -/

/-- C1 (the code at the failing input): the valid input `capInput` (one hour per day,
5001 hours, whole numbers throughout) makes `generateSchedule` return, and whatever it
returns sums to 5000 hours, not to the 5001 asked for: the loop stops at the 5000th
session with an hour still to hand out. -/
theorem generateSchedule_sum_short_at_cap :
    ValidInput capInput ∧ (∃ fuel out, generateSchedule fuel capInput = some out) ∧
    ∀ fuel out, generateSchedule fuel capInput = some out →
      (out.map (·.hours)).sum = 5000 ∧ (out.map (·.hours)).sum ≠ capInput.totalHours := by
  have hv : ValidInput capInput := by decide!
  refine ⟨hv, generateSchedule_terminates capInput (validInput_weekday hv), ?_⟩
  intro fuel out h
  obtain ⟨r, _, hh, rfl, hle, hor⟩ := generateSchedule_final hv h
  obtain ⟨_, hl, hsum, _⟩ := hh
  rw [recompute, recomputeFrom_map_hours]
  have hT : capInput.totalHours = 5001 := rfl
  have hH : capInput.hoursPerDay = 1 := rfl
  rw [hT, hH] at hl
  rw [hT] at hsum ⊢
  have hlen : r.sessionsList.length = 5000 := by
    rcases hor with h0 | h1
    · exfalso
      rw [hl] at h0
      have h2 := le_trans (le_max_left _ _) h0
      have h3 : (r.sessionsList.length : ℚ) ≤ 5000 := by exact_mod_cast hle
      linarith
    · exact h1
  have hrem : r.hoursRemaining = 1 := by
    rw [hl, hlen]
    norm_num
  have hs : (r.sessionsList.map (·.hours)).sum = 5000 := by linarith
  exact ⟨hs, by rw [hs]; norm_num⟩

/-- C3: on every valid input `generateSchedule` returns a schedule of some number n of
sessions, n at most 5000, numbered 1..n in array order, and their dates are, in order, the
eligible days (selected weekday, date not excluded) among a run of calendar days that
starts at the start date: session k is on the k-th eligible day on or after the start
date, none skipped, none used twice, strictly increasing. -/
theorem generateSchedule_kth_eligible_day (inp : ScheduleInput) (hv : ValidInput inp) :
    (∃ fuel out, generateSchedule fuel inp = some out) ∧
    ∀ fuel out, generateSchedule fuel inp = some out →
      out.length ≤ 5000 ∧ out.map (·.sessionNumber) = List.range' 1 out.length ∧
      ∃ span, out.map (·.date) = (eligibleDays inp span).map format ∧
        (eligibleDays inp span).length = out.length ∧
        (eligibleDays inp span).Pairwise (· < ·) := by
  refine ⟨generateSchedule_terminates inp (validInput_weekday hv), ?_⟩
  intro fuel out h
  have hnr := generateSchedule_numbered_recomputed h
  obtain ⟨r, ⟨_, _, _, span, _, hdates⟩, hout⟩ := generateSchedule_datesInv h
  have hd : out.map (·.date) = (eligibleDays inp span).map format := by
    rw [hout, recompute, recomputeFrom_map_date, hdates]
  refine ⟨hnr.2.2, hnr.1.2, span, hd, ?_, eligibleDays_pairwise inp span⟩
  have hlen := congrArg List.length hd
  simp only [List.length_map] at hlen
  exact hlen.symm

/-- C9: on every valid input `generateSchedule` returns, and the `remaining` values of what
it returns never rise from one session to the next and are never negative. -/
theorem generateSchedule_remaining_antitone (inp : ScheduleInput) (hv : ValidInput inp) :
    (∃ fuel out, generateSchedule fuel inp = some out) ∧
    ∀ fuel out, generateSchedule fuel inp = some out →
      ∃ rs : List ℚ, out.map (·.remaining) = rs.map some ∧
        rs.Chain' (fun a b => b ≤ a) ∧ ∀ r ∈ rs, 0 ≤ r := by
  refine ⟨generateSchedule_terminates inp (validInput_weekday hv), ?_⟩
  intro fuel out h
  obtain ⟨r, _, hh, rfl, _, _⟩ := generateSchedule_final hv h
  obtain ⟨rs, hmap, hpw, hb⟩ := recomputeFrom_remaining_antitone inp.totalHours 0
    r.sessionsList (fun s hs => (hh.positive s hs).le)
  exact ⟨rs, hmap, hpw.chain', fun x hx => (hb x hx).1⟩

/-! ## Inputs on which the loop never reaches its exit -/

theorem not_eligible_of_no_weekday (inp : ScheduleInput) (hw : inp.selectedWeekdays = [])
    (d : Int) : ¬ eligible inp d := by
  unfold eligible
  simp [hw]

theorem generateSchedule_none_of_no_weekday (inp : ScheduleInput)
    (hw : inp.selectedWeekdays = []) (ht : 0 < inp.totalHours) (fuel : Nat) :
    generateSchedule fuel inp = none := by
  unfold generateSchedule
  rw [whileLoop_diverges inp (not_eligible_of_no_weekday inp hw) fuel (initialState inp)
    (by simpa [initialState] using ht) (by simp [initialState])]
  rfl

/-- C4 (the code at the failing input): with a start date set, the form defaults and
every weekday deselected, `generateSchedule` returns for no amount of fuel: the loop never
reaches its exit and hands back no sessions, the 5000 guard never firing because no
session is ever counted. -/
theorem generateSchedule_noWeekdays_never_exits :
    ∀ fuel, generateSchedule fuel noWeekdays = none :=
  fun fuel => generateSchedule_none_of_no_weekday noWeekdays rfl (by decide!) fuel

/-- C5 (the code on the inputs of the claim): with an empty weekday set and a positive
total, `generateSchedule` returns nothing at all, for no amount of fuel; in particular it
does not return the empty list. -/
theorem generateSchedule_empty_weekdays_never_returns (inp : ScheduleInput)
    (hw : inp.selectedWeekdays = []) (ht : 0 < inp.totalHours) :
    ∀ fuel, generateSchedule fuel inp = none ∧ generateSchedule fuel inp ≠ some [] := by
  intro fuel
  rw [generateSchedule_none_of_no_weekday inp hw ht fuel]
  exact ⟨rfl, by simp⟩

/-- C6 (the code at the failing input): `addSessionAbove(2)` on the three scenario rows,
whose `remaining` fields are recomputed for 5 hours, returns four rows that are not: the
inserted row shows `remaining` 0 where the running sum gives 3. -/
theorem addSessionAbove_leaves_remaining_stale :
    RemainingRecomputed 5 scenarioSessions ∧
    addSessionAbove scenarioSessions 2 = some scenarioInserted ∧
    ¬ RemainingRecomputed 5 scenarioInserted ∧
    (scenarioInserted.map (·.remaining)).get? 1 = some (some 0) ∧
    ((recompute 5 scenarioInserted).map (·.remaining)).get? 1 = some (some 3) := by
  decide!

/-! ## The claims at concrete inputs -/

theorem generateSchedule_sessions_eligible_witness :
    generateSchedule 12 scenarioExcluded = some scenarioExcludedSessions ∧
    ∀ s ∈ scenarioExcludedSessions,
      getDay (parseISO s.date) ∈ scenarioExcluded.selectedWeekdays ∧
        ¬ s.date ∈ scenarioExcluded.excludedDates :=
  ⟨by decide!, generateSchedule_sessions_eligible 12 scenarioExcluded scenarioExcludedSessions
    (by decide!)⟩

theorem generateSchedule_kth_eligible_day_witness :
    generateSchedule 12 scenarioExcluded = some scenarioExcludedSessions ∧
    generateSchedule 12 scenario = some scenarioSessions ∧
    ValidInput scenarioExcluded ∧
    ((∃ fuel out, generateSchedule fuel scenarioExcluded = some out) ∧
     ∀ fuel out, generateSchedule fuel scenarioExcluded = some out →
      out.length ≤ 5000 ∧ out.map (·.sessionNumber) = List.range' 1 out.length ∧
      ∃ span, out.map (·.date) = (eligibleDays scenarioExcluded span).map format ∧
        (eligibleDays scenarioExcluded span).length = out.length ∧
        (eligibleDays scenarioExcluded span).Pairwise (· < ·)) :=
  ⟨by decide!, by decide!, by decide!,
    generateSchedule_kth_eligible_day scenarioExcluded (by decide!)⟩

theorem generateSchedule_remaining_antitone_witness :
    ValidInput quarterInput ∧
    ((∃ fuel out, generateSchedule fuel quarterInput = some out) ∧
     ∀ fuel out, generateSchedule fuel quarterInput = some out →
      ∃ rs : List ℚ, out.map (·.remaining) = rs.map some ∧
        rs.Chain' (fun a b => b ≤ a) ∧ ∀ r ∈ rs, 0 ≤ r) :=
  ⟨by decide!, generateSchedule_remaining_antitone quarterInput (by decide!)⟩

theorem generateSchedule_empty_weekdays_never_returns_witness :
    scenarioNoWeekdays.selectedWeekdays = [] ∧ 0 < scenarioNoWeekdays.totalHours ∧
    ∀ fuel, generateSchedule fuel scenarioNoWeekdays = none ∧
      generateSchedule fuel scenarioNoWeekdays ≠ some [] :=
  ⟨rfl, by decide!, generateSchedule_empty_weekdays_never_returns scenarioNoWeekdays rfl
    (by decide!)⟩

theorem removeSession_addSessionAbove_witness :
    generateSchedule 12 scenario = some scenarioSessions ∧
    Numbered scenarioSessions ∧
    RemainingRecomputed 5 scenarioSessions ∧ 1 ≤ 2 ∧ 2 ≤ scenarioSessions.length ∧
    ∃ mid, addSessionAbove scenarioSessions 2 = some mid ∧
      removeSession 5 mid 2 = scenarioSessions :=
  ⟨by decide!, by decide!, by decide!, by decide, by decide,
    removeSession_addSessionAbove 5 scenarioSessions 2 (by decide!) (by decide!) (by decide)
      (by decide)⟩

end Schedule
